import Mathlib

/-!
Verification of the TensorIterator planning engine
(`src/aten/src/ATen/native/TensorIterator.h`).

The repository ships only the header; class members whose bodies live in the
corresponding `.cpp` file (`compute_shape`, `compute_strides`,
`coalesce_dimensions`, `compute_types`, the 32-bit splitting machinery) are
modelled from the specification, and each such definition carries a doc
comment saying so.  Everything defined directly from code in the header
(`add_output`/`add_input`, the flag setters, `declare_static_shape`,
`common_dtype`, `SplitUntil32Bit::iterator::operator==`) mirrors the header
line by line.
-/

set_option maxHeartbeats 1000000

namespace PytorchTI

/-- Element types of tensors.  `Undefined` marks an absent or not-yet-computed
dtype, mirroring `c10::ScalarType::Undefined`. -/
inductive ScalarType where
  | Undefined
  | Byte
  | Char
  | Short
  | Int
  | Long
  | Half
  | Float
  | Double
  | Bool
  deriving DecidableEq, Repr

/-- Model of a tensor handle: tensors are identified by a numeric id.  Their
intrinsic metadata (sizes, dtype, device) plays no role in the
registration-order and flag claims, which only track which tensor went where. -/
abbrev Tensor := Nat

/-- Shallow embedding of `OperandInfo` (TensorIterator.h, lines 65-124),
restricted to the fields the claims touch.  `is_output` defaults to `false`
(line 115) and — exactly as in the source — is NOT set by
`add_output`/`add_input`; only the later planning step `mark_outputs` would
set it. -/
structure OperandInfo where
  tensor : Tensor
  is_output : Bool := false
  is_read_write : Bool := false
  deriving DecidableEq, Repr

/-- Shallow embedding of the mutable state of `struct TensorIterator`
(TensorIterator.h, lines 417-442), with the C++ in-class initializers as
field defaults. -/
structure TensorIterator where
  shape_ : List Nat := []
  operands_ : List OperandInfo := []
  num_outputs_ : Nat := 0
  common_dtype_ : ScalarType := ScalarType.Undefined
  has_coalesced_dimensions_ : Bool := false
  accumulate_ : Bool := false
  resize_outputs_ : Bool := true
  is_reduction_ : Bool := false
  allow_cpu_scalars_ : Bool := false
  final_output_ : Bool := true
  check_mem_overlap_ : Bool := false
  all_ops_same_shape_ : Bool := false
  requires_channels_last_output_ : Bool := false
  requires_channels_last_3d_output_ : Bool := false
  static_shape_ : Bool := false
  check_all_same_dtype_ : Bool := true
  check_all_same_device_ : Bool := true
  enforce_safe_casting_to_output_ : Bool := false
  promote_inputs_to_common_dtype_ : Bool := false
  cast_common_dtype_to_outputs_ : Bool := false
  deriving DecidableEq, Repr

namespace TensorIterator

/-- `void add_output(const Tensor& output)` (lines 307-310): append an operand
built from the tensor, then increment `num_outputs_`. -/
def add_output (st : TensorIterator) (output : Tensor) : TensorIterator :=
  { st with operands_ := st.operands_ ++ [{ tensor := output }],
            num_outputs_ := st.num_outputs_ + 1 }

/-- `void add_input(const Tensor& input)` (lines 317-319): append an operand
built from the tensor. -/
def add_input (st : TensorIterator) (input : Tensor) : TensorIterator :=
  { st with operands_ := st.operands_ ++ [{ tensor := input }] }

/-- `int ntensors()` (line 172). -/
def ntensors (st : TensorIterator) : Nat := st.operands_.length

/-- `int noutputs()` (line 173). -/
def noutputs (st : TensorIterator) : Nat := st.num_outputs_

/-- `void check_all_same_dtype(const bool)` (lines 330-332). -/
def check_all_same_dtype (st : TensorIterator) (b : Bool) : TensorIterator :=
  { st with check_all_same_dtype_ := b }

/-- `void promote_inputs_to_common_dtype(const bool)` (lines 356-361): store
the flag; when it is set to true, additionally clear `check_all_same_dtype_`. -/
def promote_inputs_to_common_dtype (st : TensorIterator) (b : Bool) : TensorIterator :=
  let st1 := { st with promote_inputs_to_common_dtype_ := b }
  if b then { st1 with check_all_same_dtype_ := false } else st1

/-- `void cast_common_dtype_to_outputs(const bool)` (lines 370-375): store the
flag; when it is set to true, additionally clear `check_all_same_dtype_`. -/
def cast_common_dtype_to_outputs (st : TensorIterator) (b : Bool) : TensorIterator :=
  let st1 := { st with cast_common_dtype_to_outputs_ := b }
  if b then { st1 with check_all_same_dtype_ := false } else st1

/-- `void dont_resize_outputs()` (lines 377-379). -/
def dont_resize_outputs (st : TensorIterator) : TensorIterator :=
  { st with resize_outputs_ := false }

/-- `void declare_static_shape(IntArrayRef shape)` (lines 381-388):
`TORCH_CHECK(!resize_outputs_, ...)`, then pin `shape_` and set
`static_shape_`. -/
def declare_static_shape (st : TensorIterator) (shape : List Nat) :
    Except String TensorIterator :=
  if st.resize_outputs_ then
    Except.error "dont_resize_outputs() must be called before declare_static_shape(...)"
  else
    Except.ok { st with shape_ := shape, static_shape_ := true }

/-- `void declare_static_shape(IntArrayRef shape, const int64_t squash_dim)`
(lines 390-396): delegate to the one-argument overload, return early when the
pinned shape is empty, check `0 <= squash_dim < ndim`, then set that
dimension's size to 1. -/
def declare_static_shape_squash (st : TensorIterator) (shape : List Nat)
    (squash_dim : Int) : Except String TensorIterator :=
  match st.declare_static_shape shape with
  | Except.error e => Except.error e
  | Except.ok st1 =>
    if st1.shape_.length = 0 then Except.ok st1
    else if 0 ≤ squash_dim ∧ squash_dim < (st1.shape_.length : Int) then
      Except.ok { st1 with shape_ := st1.shape_.set squash_dim.toNat 1 }
    else Except.error "squash_dim must be in [0, ndim)."

/-- `ScalarType common_dtype()` (lines 194-197):
`TORCH_INTERNAL_ASSERT(common_dtype_ != ScalarType::Undefined, ...)`, then
return the stored common dtype.  The fatal assertion is embedded as
`Except.error`. -/
def common_dtype (st : TensorIterator) : Except String ScalarType :=
  if st.common_dtype_ = ScalarType.Undefined then
    Except.error "Queried for invalid common dtype!"
  else
    Except.ok st.common_dtype_

/-- Helper: `some d` when the list is nonempty and every element equals `d`. -/
def allSame : List ScalarType → Option ScalarType
  | [] => none
  | d :: rest => if rest.all (fun x => x == d) then some d else none

/-- Modelled from the spec: `TensorIterator::compute_types` /
`compute_common_dtype` (declared at TensorIterator.h lines 407-408; bodies not
among the sources).  Spec 4.2: "Common dtype computation (run at most once,
cached): if all inputs share one type, that is the common type; otherwise, if
promotion is enabled, apply an external type-promotion function over all input
types (outputs are excluded from this computation) to obtain the common type."
`pf` is the external type-promotion function and `inputs` the list of input
operand dtypes. -/
def compute_types (pf : List ScalarType → ScalarType)
    (inputs : List ScalarType) (st : TensorIterator) : TensorIterator :=
  if st.common_dtype_ ≠ ScalarType.Undefined then st
  else
    match allSame inputs with
    | some d => { st with common_dtype_ := d }
    | none =>
      if st.promote_inputs_to_common_dtype_ then
        { st with common_dtype_ := pf inputs }
      else st

/-- Modelled from the spec: the same-dtype planning check run by `compute_types`
(body not among the sources).  Spec 4.2: "If `check_all_same_dtype` is enabled
(default) and any two operands with defined type disagree, planning fails
fatally."  Returns `true` exactly when planning would fail. -/
def same_dtype_check_fails (st : TensorIterator) (dtypes : List ScalarType) : Bool :=
  st.check_all_same_dtype_ &&
    dtypes.any fun d1 => dtypes.any fun d2 =>
      d1 ≠ ScalarType.Undefined && d2 ≠ ScalarType.Undefined && d1 ≠ d2

end TensorIterator

/-- A registration call: `add_output t` or `add_input t`. -/
inductive RegCall where
  | out (t : Tensor)
  | inp (t : Tensor)
  deriving DecidableEq, Repr

/-- Run one registration call against the iterator state. -/
def applyCall (st : TensorIterator) : RegCall → TensorIterator
  | RegCall.out t => st.add_output t
  | RegCall.inp t => st.add_input t

/-- Run a sequence of registration calls, left to right. -/
def applyCalls (st : TensorIterator) (cs : List RegCall) : TensorIterator :=
  cs.foldl applyCall st

/-- The tensors passed to `add_output`, in call order. -/
def declaredOutputs (cs : List RegCall) : List Tensor :=
  cs.filterMap fun c => match c with
    | RegCall.out t => some t
    | RegCall.inp _ => none

/-- The tensors passed to `add_input`, in call order. -/
def declaredInputs (cs : List RegCall) : List Tensor :=
  cs.filterMap fun c => match c with
    | RegCall.inp t => some t
    | RegCall.out _ => none

/-- The tensor a registration call carries. -/
def callTensor : RegCall → Tensor
  | RegCall.out t => t
  | RegCall.inp t => t

/-- `true` iff every `add_output` call precedes every `add_input` call. -/
def outputsFirst (cs : List RegCall) : Bool :=
  (cs.dropWhile fun c => match c with
      | RegCall.out _ => true
      | RegCall.inp _ => false).all fun c => match c with
    | RegCall.inp _ => true
    | RegCall.out _ => false

/-- Shallow embedding of `SplitUntil32Bit::iterator` (TensorIterator.h, lines
447-463).  `addr` models the C++ object's address, i.e. its identity (two
iterator objects are the same object exactly when their addresses agree);
`vec` models the stack of pending sub-iterators, each represented by an id. -/
structure SplitIterator where
  addr : Nat
  vec : List Nat
  deriving DecidableEq, Repr

/-- `bool operator==(const iterator& other)` (lines 454-457): "two iterators
are equal if they are the same object or they're both empty". -/
def SplitIterator.eq (a b : SplitIterator) : Bool :=
  (a.addr == b.addr) || (a.vec.isEmpty && b.vec.isEmpty)

/-- `bool operator!=(const iterator& other)` (line 459): `!(*this == other)`. -/
def SplitIterator.ne (a b : SplitIterator) : Bool :=
  !(SplitIterator.eq a b)

/-!
Broadcasting (claims C1 and C5).

`TensorIterator::compute_shape` and `compute_strides` are declared at
TensorIterator.h lines 403-404; their bodies are not among the sources, so
they are modelled from the specification.  Broadcasting right-aligns the
shapes, so all definitions below work on REVERSED size lists: index 0 is the
innermost (rightmost) dimension, and a dimension index beyond an operand's
rank is a "missing leading dimension", which behaves as size 1.
-/

/-- Modelled from the spec: the per-dimension compatibility test of
`TensorIterator::compute_shape` (body not among the sources).  Spec 4.1:
dimensions are right-aligned and a pair of sizes is compatible when they are
equal or at least one of them is 1; missing leading dimensions behave as
size 1 (hence always compatible). -/
def compatibleRev : List Nat → List Nat → Bool
  | [], _ => true
  | _ :: _, [] => true
  | x :: xs, y :: ys => (x == y || x == 1 || y == 1) && compatibleRev xs ys

/-- Modelled from the spec: `TensorIterator::compute_shape` (declared at
TensorIterator.h line 403; body not among the sources), on reversed shapes.
Spec 4.1/8: for compatible sizes the broadcast size is the max of the pair;
a pair where both sizes are greater than 1 and unequal is a fatal shape
error, embedded as `none`. -/
def compute_shape : List Nat → List Nat → Option (List Nat)
  | [], ys => some ys
  | x :: xs, [] => some (x :: xs)
  | x :: xs, y :: ys =>
    if x = y ∨ x = 1 ∨ y = 1 then
      (compute_shape xs ys).map fun zs => max x y :: zs
    else none

/-- Modelled from the spec: `TensorIterator::compute_strides` (declared at
TensorIterator.h line 404; body not among the sources), for one operand, on
reversed (innermost-first) lists.  Spec 4.1: the operand's byte strides are
re-expressed in the broadcast rank `n`; a missing leading dimension behaves
as size 1 with stride 0, and "any operand dimension of size 1 aligned against
a larger size gets that dimension's stride rewritten to 0". -/
def compute_strides (sizes strides : List Nat) (n : Nat) : List Nat :=
  (List.range n).map fun d =>
    if d < sizes.length then
      (if sizes.getD d 1 = 1 then 0 else strides.getD d 0)
    else 0

/-!
Dimension coalescing (claim C6).

`TensorIterator::coalesce_dimensions` is declared at TensorIterator.h line
414; its body is not among the sources, so it is modelled from the
specification.  An iteration space is a list of dimensions, outermost first;
each dimension records its size and, per operand, that operand's byte stride
along it.
-/

/-- One iteration dimension: its size and, for each operand, the operand's
byte stride along the dimension.  The dimension list is ordered outermost
first, so `dim+1` is the next-inner dimension. -/
structure IterDim where
  size : Nat
  strides : List Nat
  deriving DecidableEq, Repr

/-- Modelled from the spec: the merge test of
`TensorIterator::coalesce_dimensions` (body not among the sources).  Spec
4.1: "adjacent dimensions are merged into one when, for every operand,
`stride[dim] == stride[dim+1] * size[dim+1]`".  `d1` is `dim`, `d2` is
`dim+1`. -/
def canCoalesce (d1 d2 : IterDim) : Bool :=
  d1.strides == d2.strides.map fun s => s * d2.size

/-- Modelled from the spec: `TensorIterator::coalesce_dimensions` (declared
at TensorIterator.h line 414; body not among the sources).  Scan the
dimension list and merge each adjacent pair that passes `canCoalesce` into a
single dimension of the combined size, keeping the inner pair member's
strides. -/
def coalesce_dimensions : List IterDim → List IterDim
  | [] => []
  | [d] => [d]
  | d1 :: d2 :: rest =>
    if canCoalesce d1 d2 then
      coalesce_dimensions ({ size := d1.size * d2.size, strides := d2.strides } :: rest)
    else
      d1 :: coalesce_dimensions (d2 :: rest)
  termination_by l => l.length

/-- The ordered list of byte offsets operand `k` visits when the dimension
list is traversed innermost-fastest: offset = sum over dimensions of index
times stride. -/
def visitOffsets (k : Nat) : List IterDim → List Nat
  | [] => [0]
  | d :: rest =>
    (List.range d.size).flatMap fun i =>
      (visitOffsets k rest).map fun o => i * d.strides.getD k 0 + o

/-!
32-bit splitting (claims C2 and, for the equality operator, C9).

`TensorIterator::can_use_32bit_indexing`, `get_dim_to_split`, `split` and the
`SplitUntil32Bit` traversal are declared at TensorIterator.h lines 237-281 and
443-472; their bodies are not among the sources, so the splitting algorithm is
modelled from the specification (spec 4.5).
-/

/-- The geometric state of one (sub-)iterator: the iteration shape, the index
offsets into the original iteration space per dimension (`view_offsets_`,
TensorIterator.h line 421), and each operand's byte strides. -/
structure IterPlan where
  shape_ : List Nat
  view_offsets_ : List Nat
  strides_ : List (List Nat)
  deriving DecidableEq, Repr

/-- The largest byte offset (sum over dimensions of index times stride) the
given operand strides can produce within `shape`: every index is at most
size-1 per dimension. -/
def maxOffsetBytes (shape sts : List Nat) : Nat :=
  ((List.range shape.length).map fun d => (shape.getD d 0 - 1) * sts.getD d 0).sum

/-- Largest 32-bit signed value. -/
def int32max : Nat := 2 ^ 31 - 1

/-- Modelled from the spec: `TensorIterator::can_use_32bit_indexing` (declared
at TensorIterator.h line 277; body not among the sources).  Spec 4.5: each
sub-iterator's address arithmetic (offset = index times stride, summed across
dimensions) must be representable in 32-bit signed arithmetic, for every
operand. -/
def can_use_32bit_indexing (it : IterPlan) : Bool :=
  it.strides_.all fun sts => maxOffsetBytes it.shape_ sts ≤ int32max

/-- The address extent `(size[dim]-1) * stride[dim]` of dimension `d`, taken
as a maximum over all operands. -/
def dimExtent (it : IterPlan) (d : Nat) : Nat :=
  (it.strides_.map fun sts => (it.shape_.getD d 0 - 1) * sts.getD d 0).foldr max 0

/-- Modelled from the spec: `TensorIterator::get_dim_to_split` (declared at
TensorIterator.h line 240; body not among the sources): "the dimension with
the largest extent: (size[dim]-1) * stride[dim]". -/
def get_dim_to_split (it : IterPlan) : Nat :=
  (List.argmax (fun d => dimExtent it d) (List.range it.shape_.length)).getD 0

/-- Modelled from the spec: the half kept by the copy in
`TensorIterator::split` (declared at TensorIterator.h line 237; body not
among the sources): indices `[0, size/2)` of dimension `d`. -/
def splitFirstHalf (it : IterPlan) (d : Nat) : IterPlan :=
  { it with shape_ := it.shape_.set d (it.shape_.getD d 0 / 2) }

/-- Modelled from the spec: the half kept by the original in
`TensorIterator::split`: indices `[size/2, size)` of dimension `d`, with the
view offset advanced accordingly. -/
def splitSecondHalf (it : IterPlan) (d : Nat) : IterPlan :=
  { it with
    shape_ := it.shape_.set d (it.shape_.getD d 0 - it.shape_.getD d 0 / 2),
    view_offsets_ :=
      it.view_offsets_.set d (it.view_offsets_.getD d 0 + it.shape_.getD d 0 / 2) }

/-- Every member of a list of naturals is bounded by its `foldr max 0`. -/
theorem le_foldr_max {l : List Nat} {x : Nat} (hx : x ∈ l) : x ≤ l.foldr max 0 := by
  induction l with
  | nil => cases hx
  | cons a l ih =>
    rcases List.mem_cons.mp hx with h | h
    · subst h; exact Nat.le_max_left _ _
    · exact le_trans (ih h) (Nat.le_max_right _ _)

/-- A positive `foldr max 0` comes from a positive member. -/
theorem foldr_max_pos {l : List Nat} (h : 0 < l.foldr max 0) : ∃ x ∈ l, 0 < x := by
  induction l with
  | nil => simp at h
  | cons a l ih =>
    simp only [List.foldr_cons] at h
    by_cases ha : 0 < a
    · exact ⟨a, List.mem_cons_self a l, ha⟩
    · have ha0 : a = 0 := by omega
      rw [ha0, Nat.max_eq_right (Nat.zero_le _)] at h
      obtain ⟨x, hx, hx0⟩ := ih h
      exact ⟨x, List.mem_cons_of_mem _ hx, hx0⟩

/-- Replacing entry `d` of a list of naturals changes its sum by the
difference of the values. -/
theorem sum_set_add (l : List Nat) (d v : Nat) (hd : d < l.length) :
    (l.set d v).sum + l.getD d 0 = l.sum + v := by
  induction l generalizing d with
  | nil => simp at hd
  | cons a l ih =>
    cases d with
    | zero => simp [List.getD]; omega
    | succ d =>
      simp only [List.set, List.sum_cons, List.getD_cons_succ]
      have := ih d (by simpa using Nat.lt_of_succ_lt_succ hd)
      omega

/-- When the 32-bit bound fails, the dimension chosen for splitting is a real
dimension of size at least 2. -/
theorem split_dim_spec (it : IterPlan) (h : can_use_32bit_indexing it = false) :
    get_dim_to_split it < it.shape_.length ∧
    2 ≤ it.shape_.getD (get_dim_to_split it) 0 := by
  obtain ⟨sts, hsts, hbig⟩ : ∃ sts ∈ it.strides_, ¬ maxOffsetBytes it.shape_ sts ≤ int32max := by
    have := List.all_eq_false.mp h
    simpa using this
  have hpos : 0 < maxOffsetBytes it.shape_ sts := by
    have : (0:Nat) < int32max := by norm_num [int32max]
    omega
  obtain ⟨t, ht, ht0⟩ : ∃ t ∈ (List.range it.shape_.length).map
      (fun d => (it.shape_.getD d 0 - 1) * sts.getD d 0), 0 < t := by
    by_contra hall
    push_neg at hall
    have : maxOffsetBytes it.shape_ sts = 0 :=
      List.sum_eq_zero fun x hx => Nat.eq_zero_of_not_pos (by exact fun h0 => absurd h0 (by simpa using hall x hx))
    omega
  obtain ⟨d, hd, hdt⟩ := List.mem_map.mp ht
  have hdlen : d < it.shape_.length := List.mem_range.mp hd
  have hterm : 0 < (it.shape_.getD d 0 - 1) * sts.getD d 0 := by rw [hdt]; exact ht0
  have hext : 0 < dimExtent it d := by
    refine Nat.lt_of_lt_of_le hterm (le_foldr_max ?_)
    exact List.mem_map.mpr ⟨sts, hsts, rfl⟩
  have hne : List.range it.shape_.length ≠ [] := by
    intro hnil
    rw [hnil] at hd
    cases hd
  obtain ⟨m, hm⟩ : ∃ m, List.argmax (fun d => dimExtent it d) (List.range it.shape_.length) = some m := by
    cases hh : List.argmax (fun d => dimExtent it d) (List.range it.shape_.length) with
    | none => exact absurd (List.argmax_eq_none.mp hh) hne
    | some m => exact ⟨m, rfl⟩
  have hget : get_dim_to_split it = m := by simp [get_dim_to_split, hm]
  have hmmem : m < it.shape_.length :=
    List.mem_range.mp (List.argmax_mem (by rw [hm]; exact rfl))
  have hmax : dimExtent it d ≤ dimExtent it m := by
    have := List.not_lt_of_mem_argmax hd (by rw [hm]; exact rfl)
    omega
  have hextm : 0 < dimExtent it m := Nat.lt_of_lt_of_le hext hmax
  obtain ⟨x, hxmem, hx0⟩ := foldr_max_pos hextm
  obtain ⟨sts2, _, hsts2⟩ := List.mem_map.mp hxmem
  have hprod : 0 < (it.shape_.getD m 0 - 1) * sts2.getD m 0 := by rw [hsts2]; exact hx0
  have hsz : 0 < it.shape_.getD m 0 - 1 := by
    rcases Nat.eq_zero_or_pos (it.shape_.getD m 0 - 1) with h0 | h0
    · rw [h0, Nat.zero_mul] at hprod; omega
    · exact h0
  rw [hget]
  exact ⟨hmmem, by omega⟩

/-- Modelled from the spec: the sequence of sub-iterators produced by
`TensorIterator::with_32bit_indexing` / `SplitUntil32Bit` (TensorIterator.h
lines 279-281 and 443-472; traversal body not among the sources).  Spec 4.5:
"while the iterator at the top is not 32-bit-safe, split it along its
dimension of largest address extent into two halves and push the remainder
back; yield iterators as they become safe."  The recursion below yields
exactly the sequence the stack algorithm produces, in order. -/
def with_32bit_indexing (it : IterPlan) : List IterPlan :=
  if h : can_use_32bit_indexing it = true then [it]
  else
    with_32bit_indexing (splitFirstHalf it (get_dim_to_split it)) ++
      with_32bit_indexing (splitSecondHalf it (get_dim_to_split it))
  termination_by it.shape_.sum
  decreasing_by
  · have hs := split_dim_spec it (by simpa using h)
    have hsum := sum_set_add it.shape_ (get_dim_to_split it)
      (it.shape_.getD (get_dim_to_split it) 0 / 2) hs.1
    simp only [splitFirstHalf]
    omega
  · have hs := split_dim_spec it (by simpa using h)
    have hsum := sum_set_add it.shape_ (get_dim_to_split it)
      (it.shape_.getD (get_dim_to_split it) 0 - it.shape_.getD (get_dim_to_split it) 0 / 2) hs.1
    simp only [splitSecondHalf]
    omega

/-- Reading back a just-set entry. -/
theorem getD_set_eq (l : List Nat) (d v : Nat) (hd : d < l.length) :
    (l.set d v).getD d 0 = v := by
  induction l generalizing d with
  | nil => simp at hd
  | cons a l ih =>
    cases d with
    | zero => simp
    | succ d => simpa using ih d (by simpa using Nat.lt_of_succ_lt_succ hd)

/-- Setting one entry leaves the others unread. -/
theorem getD_set_ne (l : List Nat) (d e v : Nat) (hne : d ≠ e) :
    (l.set d v).getD e 0 = l.getD e 0 := by
  induction l generalizing d e with
  | nil => simp
  | cons a l ih =>
    cases d with
    | zero =>
      cases e with
      | zero => exact absurd rfl hne
      | succ e => simp
    | succ d =>
      cases e with
      | zero => simp
      | succ e => simpa using ih d e fun hh => hne (by rw [hh])

/-- The region of original multi-indices a (sub-)iterator covers: index
vectors of the iterator's rank whose entry, in every dimension, lies in
`[view_offset, view_offset + size)`. -/
def memIdx (it : IterPlan) (i : List Nat) : Prop :=
  i.length = it.shape_.length ∧
  ∀ d, d < it.shape_.length →
    it.view_offsets_.getD d 0 ≤ i.getD d 0 ∧
    i.getD d 0 < it.view_offsets_.getD d 0 + it.shape_.getD d 0

/-- Well-formedness of an iterator's geometry: one view offset per
dimension. -/
def wfPlan (it : IterPlan) : Prop :=
  it.view_offsets_.length = it.shape_.length

theorem wfPlan_splitFirstHalf (it : IterPlan) (d : Nat) (hwf : wfPlan it) :
    wfPlan (splitFirstHalf it d) := by
  simpa [wfPlan, splitFirstHalf] using hwf

theorem wfPlan_splitSecondHalf (it : IterPlan) (d : Nat) (hwf : wfPlan it) :
    wfPlan (splitSecondHalf it d) := by
  simpa [wfPlan, splitSecondHalf] using hwf

/-- The first half covers exactly the parent indices whose entry at the split
dimension falls in the lower part. -/
theorem memIdx_first_iff (it : IterPlan) (d : Nat) (hd : d < it.shape_.length)
    (i : List Nat) :
    memIdx (splitFirstHalf it d) i ↔
      memIdx it i ∧
        i.getD d 0 < it.view_offsets_.getD d 0 + it.shape_.getD d 0 / 2 := by
  have hsetd : (it.shape_.set d (it.shape_.getD d 0 / 2)).getD d 0
      = it.shape_.getD d 0 / 2 := getD_set_eq _ _ _ hd
  have hdiv : it.shape_.getD d 0 / 2 ≤ it.shape_.getD d 0 := Nat.div_le_self _ _
  simp only [memIdx, splitFirstHalf, List.length_set]
  constructor
  · rintro ⟨hlen, hb⟩
    refine ⟨⟨hlen, fun e he => ?_⟩, ?_⟩
    · by_cases hed : e = d
      · subst hed
        have hbe := hb e he
        rw [hsetd] at hbe
        exact ⟨hbe.1, by omega⟩
      · have hbe := hb e he
        rwa [getD_set_ne _ _ _ _ fun hh => hed hh.symm] at hbe
    · have hbd := hb d hd
      rw [hsetd] at hbd
      exact hbd.2
  · rintro ⟨⟨hlen, hb⟩, hextra⟩
    refine ⟨hlen, fun e he => ?_⟩
    by_cases hed : e = d
    · subst hed
      rw [hsetd]
      exact ⟨(hb e he).1, hextra⟩
    · rw [getD_set_ne _ _ _ _ fun hh => hed hh.symm]
      exact hb e he

/-- The second half covers exactly the parent indices whose entry at the
split dimension falls in the upper part. -/
theorem memIdx_second_iff (it : IterPlan) (d : Nat) (hd : d < it.shape_.length)
    (hwf : wfPlan it) (i : List Nat) :
    memIdx (splitSecondHalf it d) i ↔
      memIdx it i ∧
        it.view_offsets_.getD d 0 + it.shape_.getD d 0 / 2 ≤ i.getD d 0 := by
  have hdoff : d < it.view_offsets_.length := by rw [hwf]; exact hd
  have hsetd : (it.shape_.set d (it.shape_.getD d 0 - it.shape_.getD d 0 / 2)).getD d 0
      = it.shape_.getD d 0 - it.shape_.getD d 0 / 2 := getD_set_eq _ _ _ hd
  have hseto : (it.view_offsets_.set d
        (it.view_offsets_.getD d 0 + it.shape_.getD d 0 / 2)).getD d 0
      = it.view_offsets_.getD d 0 + it.shape_.getD d 0 / 2 := getD_set_eq _ _ _ hdoff
  have hdiv : it.shape_.getD d 0 / 2 ≤ it.shape_.getD d 0 := Nat.div_le_self _ _
  simp only [memIdx, splitSecondHalf, List.length_set]
  constructor
  · rintro ⟨hlen, hb⟩
    refine ⟨⟨hlen, fun e he => ?_⟩, ?_⟩
    · by_cases hed : e = d
      · subst hed
        have hbe := hb e he
        rw [hsetd, hseto] at hbe
        exact ⟨by omega, by omega⟩
      · have hbe := hb e he
        rwa [getD_set_ne _ _ _ _ fun hh => hed hh.symm,
             getD_set_ne _ _ _ _ fun hh => hed hh.symm] at hbe
    · have hbd := hb d hd
      rw [hseto] at hbd
      exact hbd.1
  · rintro ⟨⟨hlen, hb⟩, hextra⟩
    refine ⟨hlen, fun e he => ?_⟩
    by_cases hed : e = d
    · subst hed
      rw [hsetd, hseto]
      have hbe := hb e he
      omega
    · rw [getD_set_ne _ _ _ _ fun hh => hed hh.symm,
          getD_set_ne _ _ _ _ fun hh => hed hh.symm]
      exact hb e he

/-- Master lemma for the 32-bit splitter: every produced sub-iterator passes
the 32-bit check, the sub-iterators cover exactly the parent's index region,
and their regions are pairwise disjoint. -/
theorem with32_correct (it : IterPlan) :
    wfPlan it →
    (∀ sub ∈ with_32bit_indexing it, can_use_32bit_indexing sub = true)
    ∧ (∀ i, memIdx it i ↔ ∃ sub ∈ with_32bit_indexing it, memIdx sub i)
    ∧ (with_32bit_indexing it).Pairwise
        (fun s1 s2 => ∀ i, memIdx s1 i → ¬ memIdx s2 i) := by
  induction it using with_32bit_indexing.induct with
  | case1 it h =>
    intro _
    rw [with_32bit_indexing.eq_def, dif_pos h]
    refine ⟨?_, ?_, ?_⟩
    · intro sub hsub
      simp only [List.mem_singleton] at hsub
      subst hsub
      exact h
    · intro i
      simp
    · simp
  | case2 it h ih1 ih2 =>
    intro hwf
    have hfalse : can_use_32bit_indexing it = false := by simpa using h
    obtain ⟨hd, hs2⟩ := split_dim_spec it hfalse
    have hwf1 := wfPlan_splitFirstHalf it (get_dim_to_split it) hwf
    have hwf2 := wfPlan_splitSecondHalf it (get_dim_to_split it) hwf
    obtain ⟨g11, g12, g13⟩ := ih1 hwf1
    obtain ⟨g21, g22, g23⟩ := ih2 hwf2
    rw [with_32bit_indexing.eq_def, dif_neg h]
    have hpart : ∀ i, memIdx it i ↔
        memIdx (splitFirstHalf it (get_dim_to_split it)) i ∨
        memIdx (splitSecondHalf it (get_dim_to_split it)) i := by
      intro i
      rw [memIdx_first_iff it _ hd, memIdx_second_iff it _ hd hwf]
      constructor
      · intro hi
        by_cases hc : i.getD (get_dim_to_split it) 0 <
            it.view_offsets_.getD (get_dim_to_split it) 0 +
              it.shape_.getD (get_dim_to_split it) 0 / 2
        · exact Or.inl ⟨hi, hc⟩
        · exact Or.inr ⟨hi, by omega⟩
      · rintro (⟨hi, _⟩ | ⟨hi, _⟩) <;> exact hi
    have hdisj : ∀ i, memIdx (splitFirstHalf it (get_dim_to_split it)) i →
        memIdx (splitSecondHalf it (get_dim_to_split it)) i → False := by
      intro i h1 h2
      rw [memIdx_first_iff it _ hd] at h1
      rw [memIdx_second_iff it _ hd hwf] at h2
      have hb1 := h1.2
      have hb2 := h2.2
      omega
    refine ⟨?_, ?_, ?_⟩
    · intro sub hsub
      rcases List.mem_append.mp hsub with hs | hs
      · exact g11 sub hs
      · exact g21 sub hs
    · intro i
      rw [hpart i, g12 i, g22 i]
      constructor
      · rintro (⟨sub, hs, hm⟩ | ⟨sub, hs, hm⟩)
        · exact ⟨sub, List.mem_append.mpr (Or.inl hs), hm⟩
        · exact ⟨sub, List.mem_append.mpr (Or.inr hs), hm⟩
      · rintro ⟨sub, hs, hm⟩
        rcases List.mem_append.mp hs with hs' | hs'
        · exact Or.inl ⟨sub, hs', hm⟩
        · exact Or.inr ⟨sub, hs', hm⟩
    · rw [List.pairwise_append]
      refine ⟨g13, g23, ?_⟩
      intro a ha b hb i hma hmb
      have h1 : memIdx (splitFirstHalf it (get_dim_to_split it)) i :=
        (g12 i).mpr ⟨a, ha, hma⟩
      have h2 : memIdx (splitSecondHalf it (get_dim_to_split it)) i :=
        (g22 i).mpr ⟨b, hb, hmb⟩
      exact hdisj i h1 h2

/-- Enumerating `[0, s1*s2)` is the same as enumerating the outer index `[0,
s1)` and the inner index `[0, s2)` lexicographically. -/
theorem range_mul_flatMap (s1 s2 : Nat) :
    List.range (s1 * s2) =
      (List.range s1).flatMap fun i1 => (List.range s2).map fun i2 => i1 * s2 + i2 := by
  induction s1 with
  | zero => simp
  | succ s1 ih =>
    rw [Nat.succ_mul, List.range_add, ih, List.range_succ, List.flatMap_append]
    simp

/-- `getD` with default 0 commutes with multiplying every entry. -/
theorem getD_map_mul (l : List Nat) (k c : Nat) :
    (l.map fun s => s * c).getD k 0 = l.getD k 0 * c := by
  induction l generalizing k with
  | nil => simp
  | cons a l ih =>
    cases k with
    | zero => simp
    | succ k => simpa using ih k

/-- Merging one coalescible adjacent pair of dimensions leaves the visited
offset sequence of every operand unchanged (element for element, in order). -/
theorem visitOffsets_merge (k : Nat) (d1 d2 : IterDim) (rest : List IterDim)
    (h : canCoalesce d1 d2 = true) :
    visitOffsets k ({ size := d1.size * d2.size, strides := d2.strides } :: rest)
      = visitOffsets k (d1 :: d2 :: rest) := by
  have hstr : d1.strides = d2.strides.map fun s => s * d2.size := by
    simpa [canCoalesce] using h
  have hsig : d1.strides.getD k 0 = d2.strides.getD k 0 * d2.size := by
    rw [hstr, getD_map_mul]
  simp only [visitOffsets]
  rw [range_mul_flatMap d1.size d2.size, List.flatMap_assoc]
  simp only [List.flatMap_map, List.map_flatMap, List.map_map]
  congr 1
  funext i1
  congr 1
  funext i2
  congr 1
  funext o
  simp only [Function.comp_apply]
  rw [hsig]
  ring

/-- Coalescing never changes the sequence of visited byte offsets of any
operand: helper for claim C6. -/
theorem visitOffsets_coalesce (k : Nat) (dims : List IterDim) :
    visitOffsets k (coalesce_dimensions dims) = visitOffsets k dims := by
  induction dims using coalesce_dimensions.induct with
  | case1 => rw [coalesce_dimensions]
  | case2 d => rw [coalesce_dimensions]
  | case3 d1 d2 rest hc ih =>
    rw [coalesce_dimensions]
    rw [if_pos hc, ih]
    exact visitOffsets_merge k d1 d2 rest hc
  | case4 d1 d2 rest hc ih =>
    rw [coalesce_dimensions]
    rw [if_neg hc]
    simp only [visitOffsets, ih]

/-- For compatible reversed shapes with positive sizes, `compute_shape`
succeeds and each broadcast dimension is the max of the aligned pair
(out-of-range dimensions count as size 1). -/
theorem compute_shape_spec (a : List Nat) :
    ∀ b, compatibleRev a b = true → (∀ x ∈ a, 0 < x) → (∀ x ∈ b, 0 < x) →
    ∃ c, compute_shape a b = some c
      ∧ c.length = max a.length b.length
      ∧ ∀ d, c.getD d 1 = max (a.getD d 1) (b.getD d 1) := by
  induction a with
  | nil =>
    intro b _ _ hb
    refine ⟨b, rfl, by simp, fun d => ?_⟩
    by_cases hd : d < b.length
    · have hpos : 0 < b.getD d 1 := by
        rw [List.getD_eq_getElem _ _ hd]
        exact hb _ (List.getElem_mem hd)
      have h0 : ([] : List Nat).getD d 1 = 1 := by simp
      rw [h0]
      omega
    · rw [List.getD_eq_default _ _ (le_of_not_lt hd)]
      simp
  | cons x xs ih =>
    intro b hcompat ha hb
    cases b with
    | nil =>
      refine ⟨x :: xs, rfl, by simp, fun d => ?_⟩
      by_cases hd : d < (x :: xs).length
      · have hpos : 0 < (x :: xs).getD d 1 := by
          rw [List.getD_eq_getElem _ _ hd]
          exact ha _ (List.getElem_mem hd)
        have h0 : ([] : List Nat).getD d 1 = 1 := by simp
        rw [h0]
        omega
      · rw [List.getD_eq_default _ _ (le_of_not_lt hd)]
        simp
    | cons y ys =>
      have hcompat' : (x == y || x == 1 || y == 1) && compatibleRev xs ys = true := by
        simpa [compatibleRev] using hcompat
      obtain ⟨hxy0, hrest⟩ :
          ((x = y ∨ x = 1) ∨ y = 1) ∧ compatibleRev xs ys = true := by
        simpa [Bool.and_eq_true] using hcompat'
      have hxy : x = y ∨ x = 1 ∨ y = 1 := by tauto
      obtain ⟨c, hc, hlen, hmax⟩ := ih ys hrest
        (fun z hz => ha z (List.mem_cons_of_mem _ hz))
        (fun z hz => hb z (List.mem_cons_of_mem _ hz))
      refine ⟨max x y :: c, ?_, ?_, fun d => ?_⟩
      · rw [compute_shape, if_pos hxy, hc]
        rfl
      · simp [hlen, Nat.succ_max_succ]
      · cases d with
        | zero => simp
        | succ d => simpa using hmax d

/-- A stride produced by `compute_strides` for a dimension whose original
size (with right-alignment padding) is 1 is always 0. -/
theorem compute_strides_zero (sizes strides : List Nat) (n d : Nat)
    (h1 : sizes.getD d 1 = 1) :
    (compute_strides sizes strides n).getD d 0 = 0 := by
  unfold compute_strides
  by_cases hd : d < n
  · have hdlen : d < ((List.range n).map fun e =>
        if e < sizes.length then (if sizes.getD e 1 = 1 then 0 else strides.getD e 0) else 0).length := by
      simpa using hd
    rw [List.getD_eq_getElem _ _ hdlen]
    simp only [List.getElem_map, List.getElem_range]
    by_cases hds : d < sizes.length
    · have h1' : sizes[d] = 1 := by
        have hh := List.getD_eq_getElem (l := sizes) (d := 1) hds
        omega
      simp [hds, h1']
    · simp [hds]
  · rw [List.getD_eq_default]
    simpa using le_of_not_lt hd

/-- When sizes at some aligned dimension are unequal and both exceed 1,
`compute_shape` reports the fatal shape error. -/
theorem compute_shape_mismatch (a : List Nat) :
    ∀ b d, a.getD d 1 ≠ b.getD d 1 → 1 < a.getD d 1 → 1 < b.getD d 1 →
    compute_shape a b = none := by
  induction a with
  | nil =>
    intro b d hne ha _
    have : ([] : List Nat).getD d 1 = 1 := by simp
    omega
  | cons x xs ih =>
    intro b d hne ha hb
    cases b with
    | nil =>
      have : ([] : List Nat).getD d 1 = 1 := by simp
      omega
    | cons y ys =>
      cases d with
      | zero =>
        simp only [List.getD_cons_zero] at hne ha hb
        rw [compute_shape, if_neg (by omega)]
      | succ d =>
        simp only [List.getD_cons_succ] at hne ha hb
        rw [compute_shape]
        by_cases hxy : x = y ∨ x = 1 ∨ y = 1
        · rw [if_pos hxy, ih ys d hne ha hb]
          rfl
        · rw [if_neg hxy]

/-- Whether a registration call is an `add_output` call. -/
def isOutCall : RegCall → Bool
  | RegCall.out _ => true
  | RegCall.inp _ => false

theorem applyCalls_nil (st : TensorIterator) : applyCalls st [] = st := rfl

theorem applyCalls_cons (st : TensorIterator) (c : RegCall) (cs : List RegCall) :
    applyCalls st (c :: cs) = applyCalls (applyCall st c) cs := rfl

theorem declaredOutputs_cons_out (t : Tensor) (l : List RegCall) :
    declaredOutputs (RegCall.out t :: l) = t :: declaredOutputs l := by
  simp [declaredOutputs]

theorem declaredOutputs_cons_inp (t : Tensor) (l : List RegCall) :
    declaredOutputs (RegCall.inp t :: l) = declaredOutputs l := by
  simp [declaredOutputs]

theorem declaredInputs_cons_out (t : Tensor) (l : List RegCall) :
    declaredInputs (RegCall.out t :: l) = declaredInputs l := by
  simp [declaredInputs]

theorem declaredInputs_cons_inp (t : Tensor) (l : List RegCall) :
    declaredInputs (RegCall.inp t :: l) = t :: declaredInputs l := by
  simp [declaredInputs]

/-- Registration appends one operand per call, in call order, and counts one
declared output per `add_output` call — regardless of interleaving. -/
theorem applyCalls_spec (cs : List RegCall) (st : TensorIterator) :
    (applyCalls st cs).operands_
        = st.operands_ ++ cs.map (fun c => { tensor := callTensor c })
    ∧ (applyCalls st cs).num_outputs_
        = st.num_outputs_ + (declaredOutputs cs).length := by
  induction cs generalizing st with
  | nil => simp [applyCalls_nil, declaredOutputs]
  | cons c cs ih =>
    rw [applyCalls_cons]
    obtain ⟨ho, hn⟩ := ih (applyCall st c)
    cases c with
    | out t =>
      refine ⟨?_, ?_⟩
      · rw [ho]
        simp [applyCall, TensorIterator.add_output, callTensor]
      · rw [hn, declaredOutputs_cons_out]
        simp [applyCall, TensorIterator.add_output]
        omega
    | inp t =>
      refine ⟨?_, ?_⟩
      · rw [ho]
        simp [applyCall, TensorIterator.add_input, callTensor]
      · rw [hn, declaredOutputs_cons_inp]
        simp [applyCall, TensorIterator.add_input]

/-- On a run of pure `add_output` calls, the declared outputs are exactly the
call tensors and no inputs are declared. -/
theorem declared_all_out (l : List RegCall) (h : ∀ c ∈ l, isOutCall c = true) :
    declaredOutputs l = l.map callTensor ∧ declaredInputs l = [] := by
  induction l with
  | nil => simp [declaredOutputs, declaredInputs]
  | cons c l ih =>
    obtain ⟨ho, hi⟩ := ih fun c hc => h c (List.mem_cons_of_mem _ hc)
    cases c with
    | out t =>
      rw [declaredOutputs_cons_out, declaredInputs_cons_out, ho, hi]
      simp [callTensor]
    | inp t =>
      have := h (RegCall.inp t) (List.mem_cons_self _ _)
      simp [isOutCall] at this

/-- On a run of pure `add_input` calls, no outputs are declared and the
declared inputs are exactly the call tensors. -/
theorem declared_all_inp (l : List RegCall) (h : ∀ c ∈ l, isOutCall c = false) :
    declaredOutputs l = [] ∧ declaredInputs l = l.map callTensor := by
  induction l with
  | nil => simp [declaredOutputs, declaredInputs]
  | cons c l ih =>
    obtain ⟨ho, hi⟩ := ih fun c hc => h c (List.mem_cons_of_mem _ hc)
    cases c with
    | out t =>
      have := h (RegCall.out t) (List.mem_cons_self _ _)
      simp [isOutCall] at this
    | inp t =>
      rw [declaredOutputs_cons_inp, declaredInputs_cons_inp, ho, hi]
      simp [callTensor]

theorem declaredOutputs_append (l1 l2 : List RegCall) :
    declaredOutputs (l1 ++ l2) = declaredOutputs l1 ++ declaredOutputs l2 :=
  List.filterMap_append _ _ _

theorem declaredInputs_append (l1 l2 : List RegCall) :
    declaredInputs (l1 ++ l2) = declaredInputs l1 ++ declaredInputs l2 :=
  List.filterMap_append _ _ _

/-- Claim C1: for every pair of compatible operand shapes (right-aligned, per
dimension the sizes are equal or at least one is 1; shapes here are reversed,
innermost dimension first, and an index beyond an operand's rank is a missing
leading dimension of size 1), `compute_shape` succeeds and gives each
broadcast dimension size `max (A[i]) (B[i])`, and `compute_strides` rewrites
the byte stride of every operand dimension whose original size was 1 —
missing leading dimensions included — to 0. -/
theorem c1_broadcast_max_and_zero_strides (a b : List Nat)
    (hcompat : compatibleRev a b = true)
    (ha : ∀ x ∈ a, 0 < x) (hb : ∀ x ∈ b, 0 < x) :
    ∃ c, compute_shape a b = some c
      ∧ c.length = max a.length b.length
      ∧ (∀ d, c.getD d 1 = max (a.getD d 1) (b.getD d 1))
      ∧ (∀ strides d, a.getD d 1 = 1 →
          (compute_strides a strides c.length).getD d 0 = 0)
      ∧ (∀ strides d, b.getD d 1 = 1 →
          (compute_strides b strides c.length).getD d 0 = 0) := by
  obtain ⟨c, hc, hlen, hmax⟩ := compute_shape_spec a b hcompat ha hb
  exact ⟨c, hc, hlen, hmax,
    fun strides d hd => compute_strides_zero a strides c.length d hd,
    fun strides d hd => compute_strides_zero b strides c.length d hd⟩

/-- Witness for C1: shapes [3,1] and [1,4] (reversed: [1,3] and [4,1]) are
compatible and broadcast to [3,4] (reversed [4,3]) with max semantics and
zero strides on the size-1 dimensions. -/
theorem c1_witness :
    compatibleRev [1, 3] [4, 1] = true ∧ (∀ x ∈ [1, 3], 0 < x) ∧
      (∀ x ∈ [4, 1], 0 < x) ∧
      ∃ c, compute_shape [1, 3] [4, 1] = some c
        ∧ c.length = max ([1, 3] : List Nat).length ([4, 1] : List Nat).length
        ∧ (∀ d, c.getD d 1 = max (([1, 3] : List Nat).getD d 1) (([4, 1] : List Nat).getD d 1))
        ∧ (∀ strides d, ([1, 3] : List Nat).getD d 1 = 1 →
            (compute_strides [1, 3] strides c.length).getD d 0 = 0)
        ∧ (∀ strides d, ([4, 1] : List Nat).getD d 1 = 1 →
            (compute_strides [4, 1] strides c.length).getD d 0 = 0) :=
  ⟨by decide, by decide, by decide,
    c1_broadcast_max_and_zero_strides [1, 3] [4, 1] (by decide) (by decide) (by decide)⟩

/-- Claim C5: at any aligned dimension where the two operand sizes are
unequal and both exceed 1, `compute_shape` fails with the fatal shape error
(`none`); in particular 1-D operands of sizes 5 and 6 fail. -/
theorem c5_shape_mismatch_fatal (a b : List Nat) (d : Nat)
    (hne : a.getD d 1 ≠ b.getD d 1) (ha : 1 < a.getD d 1) (hb : 1 < b.getD d 1) :
    compute_shape a b = none :=
  compute_shape_mismatch a b d hne ha hb

/-- Witness for C5: the spec's own example, 1-D shapes [5] and [6]. -/
theorem c5_witness :
    ([5] : List Nat).getD 0 1 ≠ ([6] : List Nat).getD 0 1
      ∧ 1 < ([5] : List Nat).getD 0 1 ∧ 1 < ([6] : List Nat).getD 0 1
      ∧ compute_shape [5] [6] = none :=
  ⟨by decide, by decide, by decide,
    c5_shape_mismatch_fatal [5] [6] 0 (by decide) (by decide) (by decide)⟩

/-- Claim C6: `coalesce_dimensions` merges adjacent dimensions only under the
`canCoalesce` condition (for every operand,
`stride[dim] == stride[dim+1] * size[dim+1]`, by construction of the
definition), and the traversal after coalescing visits, for every operand,
exactly the same sequence of byte offsets as the traversal before — here even
in the same order, so the reordering permitted by the claim is the identity
permutation. -/
theorem c6_coalesce_lossless (dims : List IterDim) (k : Nat) :
    visitOffsets k (coalesce_dimensions dims) = visitOffsets k dims :=
  visitOffsets_coalesce k dims

/-- Claim C2: the sub-iterators produced by `with_32bit_indexing` form a
finite sequence (a list) in which every member satisfies
`can_use_32bit_indexing`, the members' index regions cover exactly the parent
iterator's region, and the regions are pairwise disjoint — so iterating all
sub-iterators visits each original element exactly once. -/
theorem c2_split_32bit_partition (it : IterPlan) (hwf : wfPlan it) :
    (∀ sub ∈ with_32bit_indexing it, can_use_32bit_indexing sub = true)
    ∧ (∀ i, memIdx it i ↔ ∃ sub ∈ with_32bit_indexing it, memIdx sub i)
    ∧ (with_32bit_indexing it).Pairwise
        (fun s1 s2 => ∀ i, memIdx s1 i → ¬ memIdx s2 i) :=
  with32_correct it hwf

/-- Witness for C2: one operand of shape [4] with byte stride 2^30 exceeds
the 32-bit bound and must actually be split; the theorem applies and every
produced sub-iterator passes the 32-bit check. -/
theorem c2_witness :
    wfPlan { shape_ := [4], view_offsets_ := [0], strides_ := [[2 ^ 30]] } ∧
      ∀ sub ∈ with_32bit_indexing
          { shape_ := [4], view_offsets_ := [0], strides_ := [[2 ^ 30]] },
        can_use_32bit_indexing sub = true :=
  ⟨rfl, (c2_split_32bit_partition
    { shape_ := [4], view_offsets_ := [0], strides_ := [[2 ^ 30]] } rfl).1⟩

/-- `compute_types` is idempotent: once a common dtype was computed (or the
computation correctly declined to produce one), rerunning the computation
changes nothing — the dtype is computed at most once. -/
theorem compute_types_idem (pf : List ScalarType → ScalarType)
    (inputs : List ScalarType) (st : TensorIterator) :
    TensorIterator.compute_types pf inputs (TensorIterator.compute_types pf inputs st)
      = TensorIterator.compute_types pf inputs st := by
  by_cases h1 : st.common_dtype_ = ScalarType.Undefined
  · cases hs : TensorIterator.allSame inputs with
    | some d =>
      by_cases hd : d = ScalarType.Undefined
      · subst hd
        simp [TensorIterator.compute_types, h1, hs]
      · simp [TensorIterator.compute_types, h1, hs, hd]
    | none =>
      by_cases hp : st.promote_inputs_to_common_dtype_
      · by_cases hpf : pf inputs = ScalarType.Undefined
        · simp [TensorIterator.compute_types, h1, hs, hp, hpf]
        · simp [TensorIterator.compute_types, h1, hs, hp, hpf]
      · simp [TensorIterator.compute_types, h1, hs, hp]
  · simp [TensorIterator.compute_types, h1]

/-- Claim C3: querying `common_dtype()` while the stored common dtype is
still `Undefined` — in particular after a `compute_types` run in which the
inputs neither share one dtype nor promotion was requested — fails with the
fatal type error; on a valid computation path the query returns the computed
dtype, and recomputation is a no-op (computed at most once), so two queries
return identical values. -/
theorem c3_common_dtype_contract (pf : List ScalarType → ScalarType)
    (inputs : List ScalarType) (st : TensorIterator)
    (hstart : st.common_dtype_ = ScalarType.Undefined) :
    ((TensorIterator.compute_types pf inputs st).common_dtype_ = ScalarType.Undefined →
        (TensorIterator.compute_types pf inputs st).common_dtype
          = Except.error "Queried for invalid common dtype!")
    ∧ (TensorIterator.allSame inputs = none → st.promote_inputs_to_common_dtype_ = false →
        (TensorIterator.compute_types pf inputs st).common_dtype
          = Except.error "Queried for invalid common dtype!")
    ∧ (∀ d, d ≠ ScalarType.Undefined → TensorIterator.allSame inputs = some d →
        (TensorIterator.compute_types pf inputs st).common_dtype = Except.ok d)
    ∧ (TensorIterator.allSame inputs = none → st.promote_inputs_to_common_dtype_ = true →
        pf inputs ≠ ScalarType.Undefined →
        (TensorIterator.compute_types pf inputs st).common_dtype
          = Except.ok (pf inputs))
    ∧ TensorIterator.compute_types pf inputs (TensorIterator.compute_types pf inputs st)
        = TensorIterator.compute_types pf inputs st := by
  refine ⟨?_, ?_, ?_, ?_, ?_⟩
  · intro hundef
    simp [TensorIterator.common_dtype, hundef]
  · intro hnone hpromote
    simp [TensorIterator.compute_types, TensorIterator.common_dtype, hstart, hnone, hpromote]
  · intro d hd hsome
    simp [TensorIterator.compute_types, TensorIterator.common_dtype, hstart, hsome, hd]
  · intro hnone hpromote hpf
    simp [TensorIterator.compute_types, TensorIterator.common_dtype, hstart, hnone, hpromote, hpf]
  · exact compute_types_idem pf inputs st

/-- Witness for C3: two inputs of different dtypes with promotion off leave
the common dtype undefined, and the query fails. -/
theorem c3_witness :
    ({} : TensorIterator).common_dtype_ = ScalarType.Undefined ∧
      TensorIterator.allSame [ScalarType.Int, ScalarType.Float] = none ∧
      ({} : TensorIterator).promote_inputs_to_common_dtype_ = false ∧
      (TensorIterator.compute_types (fun _ => ScalarType.Float)
          [ScalarType.Int, ScalarType.Float] {}).common_dtype
        = Except.error "Queried for invalid common dtype!" :=
  ⟨rfl, rfl, rfl,
    (c3_common_dtype_contract (fun _ => ScalarType.Float)
      [ScalarType.Int, ScalarType.Float] {} rfl).2.1 rfl rfl⟩

/-- Claim C4, counterexample: the claim asserts the outputs occupy indices
[0, numOutputs) regardless of registration order, but `add_output` merely
appends — after `add_input 0` then `add_output 1`, `num_outputs_` is 1 while
index 0 holds the tensor registered as an input, not the declared output. -/
theorem c4_counterexample :
    ¬ (((applyCalls {} [RegCall.inp 0, RegCall.out 1]).operands_.take
          (applyCalls {} [RegCall.inp 0, RegCall.out 1]).num_outputs_).map
            OperandInfo.tensor
        = declaredOutputs [RegCall.inp 0, RegCall.out 1]) := by
  decide

/-- Claim C4 (amended): the number of declared outputs never exceeds the
operand count regardless of the order of `add_output`/`add_input` calls, and
when every `add_output` call precedes every `add_input` call the outputs
occupy exactly indices [0, numOutputs) and the inputs the remainder. -/
theorem c4_outputs_prefix_when_outputs_first (cs : List RegCall) :
    (applyCalls {} cs).num_outputs_ ≤ (applyCalls {} cs).ntensors
    ∧ (outputsFirst cs = true →
        ((applyCalls {} cs).operands_.take (applyCalls {} cs).num_outputs_).map
            OperandInfo.tensor = declaredOutputs cs
        ∧ ((applyCalls {} cs).operands_.drop (applyCalls {} cs).num_outputs_).map
            OperandInfo.tensor = declaredInputs cs) := by
  obtain ⟨ho, hn⟩ := applyCalls_spec cs {}
  constructor
  · rw [TensorIterator.ntensors, ho, hn]
    simp only [List.nil_append, List.length_map]
    calc ({} : TensorIterator).num_outputs_ + (declaredOutputs cs).length
        = (declaredOutputs cs).length := by simp
      _ ≤ cs.length := List.length_filterMap_le _ _
  · intro hfirst
    obtain ⟨houts, hins⟩ : (∀ c ∈ cs.takeWhile isOutCall, isOutCall c = true)
        ∧ ∀ c ∈ cs.dropWhile isOutCall, isOutCall c = false := by
      constructor
      · intro c hc
        exact List.mem_takeWhile_imp hc
      · intro c hc
        have hall : ∀ c ∈ cs.dropWhile fun c => match c with
            | RegCall.out _ => true
            | RegCall.inp _ => false,
            (match c with | RegCall.inp _ => true | RegCall.out _ => false) = true := by
          simpa [outputsFirst, List.all_eq_true] using hfirst
        have hc' : c ∈ cs.dropWhile fun c => match c with
            | RegCall.out _ => true
            | RegCall.inp _ => false := by
          have : isOutCall = fun c => match c with
              | RegCall.out _ => true
              | RegCall.inp _ => false := by
            funext c
            cases c <;> rfl
          rwa [this] at hc
        have := hall c hc'
        cases c with
        | out t => simp at this
        | inp t => rfl
    have hsplit : cs.takeWhile isOutCall ++ cs.dropWhile isOutCall = cs :=
      List.takeWhile_append_dropWhile _ _
    obtain ⟨hdo1, hdi1⟩ := declared_all_out _ houts
    obtain ⟨hdo2, hdi2⟩ := declared_all_inp _ hins
    have hdo : declaredOutputs cs = (cs.takeWhile isOutCall).map callTensor := by
      rw [← hsplit, declaredOutputs_append, hdo1, hdo2, List.append_nil]
      rw [hsplit]
    have hdi : declaredInputs cs = (cs.dropWhile isOutCall).map callTensor := by
      rw [← hsplit, declaredInputs_append, hdi1, hdi2, List.nil_append]
      rw [hsplit]
    have hmapsplit : cs.map (fun c => ({ tensor := callTensor c } : OperandInfo))
        = (cs.takeWhile isOutCall).map (fun c => ({ tensor := callTensor c } : OperandInfo))
          ++ (cs.dropWhile isOutCall).map (fun c => ({ tensor := callTensor c } : OperandInfo)) := by
      rw [← List.map_append, hsplit]
    have hnum : (applyCalls {} cs).num_outputs_ = (cs.takeWhile isOutCall).length := by
      rw [hn, hdo]
      simp
    constructor
    · rw [ho, hnum, List.nil_append, hmapsplit, hdo]
      rw [show (cs.takeWhile isOutCall).length
          = ((cs.takeWhile isOutCall).map (fun c => ({ tensor := callTensor c } : OperandInfo))).length
          from (List.length_map _ _).symm]
      rw [List.take_left, List.map_map]
      rfl
    · rw [ho, hnum, List.nil_append, hmapsplit, hdi]
      rw [show (cs.takeWhile isOutCall).length
          = ((cs.takeWhile isOutCall).map (fun c => ({ tensor := callTensor c } : OperandInfo))).length
          from (List.length_map _ _).symm]
      rw [List.drop_left, List.map_map]
      rfl

/-- Witness for C4 (amended): one output registered before one input lands at
index 0 with the input after it. -/
theorem c4_witness :
    outputsFirst [RegCall.out 5, RegCall.inp 7] = true ∧
      ((applyCalls {} [RegCall.out 5, RegCall.inp 7]).operands_.take
          (applyCalls {} [RegCall.out 5, RegCall.inp 7]).num_outputs_).map
        OperandInfo.tensor = declaredOutputs [RegCall.out 5, RegCall.inp 7] :=
  ⟨by decide,
    ((c4_outputs_prefix_when_outputs_first [RegCall.out 5, RegCall.inp 7]).2
      (by decide)).1⟩

/-- Claim C7: `promote_inputs_to_common_dtype(true)` and
`cast_common_dtype_to_outputs(true)` each set their own flag and additionally
clear `check_all_same_dtype_` (which defaults to true), after which the
same-dtype planning check cannot fail on any dtype disagreement. -/
theorem c7_setters_relax_dtype_check (st : TensorIterator)
    (dtypes : List ScalarType) :
    ({} : TensorIterator).check_all_same_dtype_ = true
    ∧ (st.promote_inputs_to_common_dtype true).promote_inputs_to_common_dtype_ = true
    ∧ (st.promote_inputs_to_common_dtype true).check_all_same_dtype_ = false
    ∧ (st.cast_common_dtype_to_outputs true).cast_common_dtype_to_outputs_ = true
    ∧ (st.cast_common_dtype_to_outputs true).check_all_same_dtype_ = false
    ∧ TensorIterator.same_dtype_check_fails
        (st.promote_inputs_to_common_dtype true) dtypes = false
    ∧ TensorIterator.same_dtype_check_fails
        (st.cast_common_dtype_to_outputs true) dtypes = false := by
  refine ⟨rfl, rfl, rfl, rfl, rfl, ?_, ?_⟩ <;>
    simp [TensorIterator.same_dtype_check_fails,
      TensorIterator.promote_inputs_to_common_dtype,
      TensorIterator.cast_common_dtype_to_outputs]

/-- Claim C8: `declare_static_shape` fails fatally while output resizing is
still enabled; after `dont_resize_outputs` it pins the shape (and sets
`static_shape_`), and the squash overload additionally forces the given
dimension to size 1 when that dimension index lies in [0, ndim). -/
theorem c8_static_shape_ordering (st : TensorIterator) (shape : List Nat)
    (d : Nat) (hd : d < shape.length) :
    (st.resize_outputs_ = true →
        st.declare_static_shape shape
          = Except.error "dont_resize_outputs() must be called before declare_static_shape(...)"
        ∧ st.declare_static_shape_squash shape (d : Int)
          = Except.error "dont_resize_outputs() must be called before declare_static_shape(...)")
    ∧ st.dont_resize_outputs.declare_static_shape shape
        = Except.ok { st.dont_resize_outputs with shape_ := shape, static_shape_ := true }
    ∧ st.dont_resize_outputs.declare_static_shape_squash shape (d : Int)
        = Except.ok { st.dont_resize_outputs with
            shape_ := shape.set d 1, static_shape_ := true } := by
  refine ⟨fun hres => ⟨?_, ?_⟩, ?_, ?_⟩
  · simp [TensorIterator.declare_static_shape, hres]
  · simp [TensorIterator.declare_static_shape_squash,
      TensorIterator.declare_static_shape, hres]
  · simp [TensorIterator.declare_static_shape, TensorIterator.dont_resize_outputs]
  · have h0 : ¬ shape.length = 0 := by omega
    have hcast : (d : Int) < (shape.length : Int) := by exact_mod_cast hd
    simp [TensorIterator.declare_static_shape_squash,
      TensorIterator.declare_static_shape, TensorIterator.dont_resize_outputs,
      h0, hcast, Int.ofNat_nonneg]

/-- Witness for C8: a fresh iterator (resizing enabled) rejects the static
shape [2,3]; after disabling resizing, squashing dimension 1 pins [2,1]. -/
theorem c8_witness :
    ({} : TensorIterator).resize_outputs_ = true ∧
      (1 : Nat) < ([2, 3] : List Nat).length ∧
      ({} : TensorIterator).declare_static_shape [2, 3]
        = Except.error "dont_resize_outputs() must be called before declare_static_shape(...)" ∧
      ({} : TensorIterator).dont_resize_outputs.declare_static_shape_squash [2, 3] ((1 : Nat) : Int)
        = Except.ok { ({} : TensorIterator).dont_resize_outputs with
            shape_ := ([2, 3] : List Nat).set 1 1, static_shape_ := true } :=
  ⟨rfl, by decide,
    ((c8_static_shape_ordering {} [2, 3] 1 (by decide)).1 rfl).1,
    (c8_static_shape_ordering {} [2, 3] 1 (by decide)).2.2⟩

/-- Claim C9: `SplitUntil32Bit::iterator::operator==` holds exactly when the
two iterators are the same object (equal addresses in the model) or both
pending stacks are empty; hence any two exhausted iterators compare equal,
and `operator!=` is the exact negation of `operator==`. -/
theorem c9_split_iterator_equality (a b : SplitIterator) :
    (SplitIterator.eq a b = true ↔ a.addr = b.addr ∨ (a.vec = [] ∧ b.vec = []))
    ∧ (a.vec = [] → b.vec = [] → SplitIterator.eq a b = true)
    ∧ SplitIterator.ne a b = !SplitIterator.eq a b := by
  refine ⟨?_, ?_, rfl⟩
  · simp [SplitIterator.eq, List.isEmpty_iff]
  · intro h1 h2
    simp [SplitIterator.eq, h1, h2]

/-- Witness for C9: two distinct exhausted iterators compare equal. -/
theorem c9_witness :
    SplitIterator.eq ⟨0, []⟩ ⟨1, []⟩ = true ∧
      SplitIterator.ne ⟨0, []⟩ ⟨1, []⟩ = !SplitIterator.eq ⟨0, []⟩ ⟨1, []⟩ :=
  ⟨(c9_split_iterator_equality ⟨0, []⟩ ⟨1, []⟩).2.1 rfl rfl,
    (c9_split_iterator_equality ⟨0, []⟩ ⟨1, []⟩).2.2⟩

/-- Claim C10: passing `false` to `promote_inputs_to_common_dtype` or
`cast_common_dtype_to_outputs` rewrites only that setter's own flag and
leaves every other field — `check_all_same_dtype_` included — unchanged
(stated as a whole-record equality); in particular enabling then disabling
promotion leaves the same-dtype check disabled until `check_all_same_dtype
(true)` re-enables it explicitly. -/
theorem c10_disable_preserves_flags (st : TensorIterator) :
    st.promote_inputs_to_common_dtype false
        = { st with promote_inputs_to_common_dtype_ := false }
    ∧ st.cast_common_dtype_to_outputs false
        = { st with cast_common_dtype_to_outputs_ := false }
    ∧ (st.promote_inputs_to_common_dtype false).check_all_same_dtype_
        = st.check_all_same_dtype_
    ∧ (st.cast_common_dtype_to_outputs false).check_all_same_dtype_
        = st.check_all_same_dtype_
    ∧ ((st.promote_inputs_to_common_dtype true).promote_inputs_to_common_dtype
        false).check_all_same_dtype_ = false
    ∧ (((st.promote_inputs_to_common_dtype true).promote_inputs_to_common_dtype
        false).check_all_same_dtype true).check_all_same_dtype_ = true :=
  ⟨rfl, rfl, rfl, rfl, rfl, rfl⟩

end PytorchTI
